import Mathlib

/-!
Verification of the calculation-job submission engine of this repository.

The definitions below are a shallow embedding of the Python sources:

* `aiida/calculations/plugins/arithmetic/add.py` — the
  `ArithmeticAddCalculation` job-specification builder
  (`validate_input_nodes`, `_prepare_for_submission`, the retrieve/copy
  lists and the `CodeInfo`/`CalcInfo` records).
* `aiida/orm/data/__init__.py` — `Data.export`.
* `aiida/orm/data/cif.py` — the `md5` attribute handling of `CifData`
  (`set_file`, `store`, `_validate`, `generate_md5`).
* the computer-configuration operation exercised by
  `aiida/backends/tests/computer.py` (its implementation is not among the
  provided sources, so it is modelled from the specification).

Python dictionaries are embedded as association lists with distinct keys
(insertion order preserved, as in Python); dictionary mutation is made
explicit by threading the dictionary value through the functions.
-/

set_option autoImplicit false

namespace Aiida

/-! ## Data model for the arithmetic add calculation (add.py) -/

/-- The AiiDA node classes relevant to the add calculation: `Int`, `Float`
and the code artifact class. -/
inductive Ty
  | intTy
  | floatTy
  | codeTy
deriving DecidableEq, Repr

/-- An input node: its class, its numeric value and its uuid. -/
structure Node where
  ty : Ty
  value : Int
  uuid : String
deriving DecidableEq, Repr

/-- The `valid_types` entry of a `_use_methods` record: either a single
class or a (nonempty) tuple of classes. -/
inductive ValidTypes
  | single (t : Ty)
  | tuple (t : Ty) (ts : List Ty)
deriving DecidableEq, Repr

/-- Default construction `valid_type_class()`: `Int()` has value `0`,
`Float()` has value `0.0`. -/
def mkDefaultNode (t : Ty) : Node := { ty := t, value := 0, uuid := "" }

/-- Embeds `_get_input_valid_type`: the first element when `valid_types`
is a tuple, the single class otherwise. -/
def get_input_valid_type : ValidTypes → Ty
  | .single t => t
  | .tuple t _ => t

/-- The per-class configuration used by `validate_input_nodes`:
`_required_inputs`, `_optional_inputs`, `get_linkname` and the
`valid_types` declared in `_use_methods`. -/
structure CalcConfig where
  required_inputs : List String
  optional_inputs : List String
  linkname : String → String
  valid_types : String → ValidTypes

/-- A raw input dictionary: an association list of key/node pairs. -/
abbrev RawInputs := List (String × Node)

/-- Key membership in a dictionary (`k in d`). -/
def hasKey (k : String) : RawInputs → Bool
  | [] => false
  | (k', _) :: rest => k' == k || hasKey k rest

/-- Dictionary lookup (`d[k]`), returning the first binding for `k`. -/
def lookupNode (k : String) : RawInputs → Option Node
  | [] => none
  | (k', v) :: rest => if k' = k then some v else lookupNode k rest

/-- Embeds `d.pop(k)`: remove the binding for `k` and return its value
together with the shrunken dictionary; `none` plays `KeyError`. -/
def popKey (k : String) : RawInputs → Option (Node × RawInputs)
  | [] => none
  | (k', v) :: rest =>
    if k' = k then some (v, rest)
    else
      match popKey k rest with
      | none => none
      | some (v', rest') => some (v', (k', v) :: rest')

/-- Embeds `d[k] = v`: overwrite in place when the key is present,
append otherwise (Python dict insertion-order semantics). -/
def dictInsert (k : String) (v : Node) : RawInputs → RawInputs
  | [] => [(k, v)]
  | (k', w) :: rest => if k' = k then (k, v) :: rest else (k', w) :: dictInsert k v rest

/-- The `InputValidationError` raised by `validate_input_nodes`, carrying
the data interpolated into the message. -/
inductive VError
  | missingRequired (key : String)
  | unrecognized (keys : List String)
deriving DecidableEq, Repr

/-- The error message strings of `validate_input_nodes`. -/
def renderVError : VError → String
  | .missingRequired k => "required input '" ++ k ++ "' was not specified"
  | .unrecognized ks =>
      "the following input nodes were not recognized: " ++ String.intercalate ", " ks

/-- The first loop of `validate_input_nodes`: pop each required key from
the raw dictionary, storing the node under its link name; a failed pop
raises `InputValidationError`. -/
def processRequired (cfg : CalcConfig) :
    List String → RawInputs → RawInputs → Except VError (RawInputs × RawInputs)
  | [], nodes, raw => .ok (nodes, raw)
  | k :: ks, nodes, raw =>
    match popKey k raw with
    | none => .error (.missingRequired k)
    | some (v, raw') => processRequired cfg ks (dictInsert (cfg.linkname k) v nodes) raw'

/-- The second loop of `validate_input_nodes`: pop each optional key when
present, otherwise default-construct an instance of the key's valid
type. -/
def processOptional (cfg : CalcConfig) :
    List String → RawInputs → RawInputs → RawInputs × RawInputs
  | [], nodes, raw => (nodes, raw)
  | k :: ks, nodes, raw =>
    match popKey k raw with
    | some (v, raw') => processOptional cfg ks (dictInsert (cfg.linkname k) v nodes) raw'
    | none =>
        processOptional cfg ks
          (dictInsert (cfg.linkname k) (mkDefaultNode (get_input_valid_type (cfg.valid_types k)))
            nodes)
          raw

/-- Embeds `ArithmeticAddCalculation.validate_input_nodes`. The result
carries both the validated node dictionary and the final state of the
caller's raw dictionary (which the Python code mutates by `pop`). -/
def validate_input_nodes (cfg : CalcConfig) (raw : RawInputs) :
    Except VError (RawInputs × RawInputs) :=
  match processRequired cfg cfg.required_inputs [] raw with
  | .error e => .error e
  | .ok (nodes, raw1) =>
    let p := processOptional cfg cfg.optional_inputs nodes raw1
    if p.2.isEmpty then .ok p else .error (.unrecognized (p.2.map Prod.fst))

/-! ## CalcInfo / CodeInfo and `_prepare_for_submission` -/

/-- `self._INPUT_FILE_NAME`. -/
def INPUT_FILE_NAME : String := "aiida.in"

/-- `self._OUTPUT_FILE_NAME`. -/
def OUTPUT_FILE_NAME : String := "aiida.out"

/-- The Command Descriptor (`CodeInfo`) fields set by the builder. -/
structure CodeInfo where
  cmdline_params : List String
  stdout_name : String
  code_uuid : String
deriving DecidableEq, Repr

/-- The Transfer Plan (`CalcInfo`) fields set by the builder.  Copy-list
entries are (source, destination) pairs. -/
structure CalcInfo where
  uuid : String
  codes_info : List CodeInfo
  retrieve_list : List String
  local_copy_list : List (String × String)
  remote_copy_list : List (String × String)
deriving DecidableEq, Repr

/-- Embeds `get_retrieve_list`: only the output file is retrieved. -/
def get_retrieve_list : List String := [OUTPUT_FILE_NAME]

/-- Embeds `get_local_copy_list`. -/
def get_local_copy_list : List (String × String) := []

/-- Embeds `get_remote_copy_list`. -/
def get_remote_copy_list : List (String × String) := []

/-- Failures of `_prepare_for_submission`: the propagated
`InputValidationError`, or a `KeyError` on the validated dictionary. -/
inductive PrepError
  | validation (e : VError)
  | keyError (key : String)
deriving DecidableEq, Repr

/-- Embeds `write_input_files`: the name and content of the input file
written into the staging folder. -/
def write_input_files (x y : Node) : String × String :=
  (INPUT_FILE_NAME, toString x.value ++ " " ++ toString y.value ++ "\n")

/-- Embeds `ArithmeticAddCalculation._prepare_for_submission`: validate the
raw inputs, look up the `x`, `y` and `code` nodes under their link names,
write the input file into the staging folder, and assemble the `CodeInfo`
and `CalcInfo` records. -/
def prepare_for_submission (cfg : CalcConfig) (selfUuid : String) (raw : RawInputs) :
    Except PrepError CalcInfo :=
  match validate_input_nodes cfg raw with
  | .error e => .error (.validation e)
  | .ok (input_nodes, _) =>
    match lookupNode (cfg.linkname "x") input_nodes, lookupNode (cfg.linkname "y") input_nodes,
        lookupNode (cfg.linkname "code") input_nodes with
    | some input_x, some input_y, some input_code =>
        let _staged := write_input_files input_x input_y
        let codeinfo : CodeInfo :=
          { cmdline_params := ["-in", INPUT_FILE_NAME]
            stdout_name := OUTPUT_FILE_NAME
            code_uuid := input_code.uuid }
        .ok
          { uuid := selfUuid
            codes_info := [codeinfo]
            retrieve_list := get_retrieve_list
            local_copy_list := get_local_copy_list
            remote_copy_list := get_remote_copy_list }
    | none, _, _ => .error (.keyError (cfg.linkname "x"))
    | some _, none, _ => .error (.keyError (cfg.linkname "y"))
    | some _, some _, none => .error (.keyError (cfg.linkname "code"))

/-- All destination paths of a Transfer Plan: retrieval targets and the
destinations of the two copy lists. -/
def plan_destinations (ci : CalcInfo) : List String :=
  ci.retrieve_list ++ ci.local_copy_list.map Prod.snd ++ ci.remote_copy_list.map Prod.snd

/-- The concrete configuration of `ArithmeticAddCalculation`:
`_required_inputs = ['code', 'x', 'y']`, `_optional_inputs = []`, link
names equal to the keys, and `valid_types = (Int, Float)` for the two
operands. -/
def arithmeticAddConfig : CalcConfig where
  required_inputs := ["code", "x", "y"]
  optional_inputs := []
  linkname := fun k => k
  valid_types := fun k =>
    match k with
    | "x" => .tuple .intTy [.floatTy]
    | "y" => .tuple .intTy [.floatTy]
    | _ => .single .codeTy

/-- The first required key absent from the raw dictionary, if any. -/
def firstMissing (keys : List String) (raw : RawInputs) : Option String :=
  keys.find? (fun k => !(hasKey k raw))

/-- The keys of a dictionary are pairwise distinct (the Python `dict`
representation invariant). -/
def keysNodup (d : RawInputs) : Prop := (d.map Prod.fst).Nodup

/-- The entries of a raw dictionary whose key is neither a required nor an
optional input key: exactly the entries left in the dictionary after the
two pop loops. -/
def unrecognizedEntries (cfg : CalcConfig) (raw : RawInputs) : RawInputs :=
  raw.filter (fun p =>
    !(cfg.required_inputs.contains p.1) && !(cfg.optional_inputs.contains p.1))

/-- A configuration with a nonempty optional-input list, used to evaluate
the optional-key defaulting branch on concrete data. -/
def optionalDemoConfig : CalcConfig where
  required_inputs := ["code"]
  optional_inputs := ["settings"]
  linkname := fun k => k
  valid_types := fun k =>
    match k with
    | "settings" => .tuple .floatTy [.intTy]
    | _ => .single .codeTy

/-- A concrete code-artifact input node. -/
def codeNode : Node := { ty := .codeTy, value := 0, uuid := "uuid-code-artifact" }

/-- A concrete left operand (`x = 2`). -/
def xNode : Node := { ty := .intTy, value := 2, uuid := "uuid-x-operand" }

/-- A concrete right operand (`y = 3`). -/
def yNode : Node := { ty := .intTy, value := 3, uuid := "uuid-y-operand" }

/-! ## Computer configuration (modelled from the spec) -/

/-- Modelled from the spec: the accepted-parameter set each transport kind
declares (the credential-schema collaborator of §4.1/§6 is not among the
provided sources): a no-parameter local transport and a
host/port/username-accepting ssh transport. -/
def transport_accepted_params : String → List String
  | "local" => []
  | "ssh" => ["host", "port", "username"]
  | _ => []

/-- An Execution Target (`Computer`): its label and transport kind tag. -/
structure Computer where
  label : String
  transport_type : String
deriving DecidableEq, Repr

/-- Credential parameters: a mapping from parameter key to value. -/
abbrev CredentialParams := List (String × String)

/-- The persisted Access Credentials: one entry per (user, target-label)
pair. -/
abbrev AuthStore := List ((String × String) × CredentialParams)

/-- The `InvalidParameterError` raised by `configure`, naming the
offending parameter key. -/
inductive ConfigureError
  | invalidParameter (key : String)
deriving DecidableEq, Repr

/-- Modelled from the spec: `configure(target, user, credential_params)`
validates the parameter keys against the accepted-parameter set of the
target's transport kind; an unrecognized key fails with
`InvalidParameterError` naming it and nothing is persisted; otherwise
exactly one Access Credential is persisted for the (user, target)
pair.  (The `Computer.configure` implementation is not among the provided
sources — only its test is.) -/
def configure (target : Computer) (user : String) (params : CredentialParams)
    (store : AuthStore) : AuthStore × Except ConfigureError Unit :=
  match params.find?
      (fun p => !((transport_accepted_params target.transport_type).contains p.1)) with
  | some p => (store, .error (.invalidParameter p.1))
  | none =>
      (((user, target.label), params) ::
        store.filter (fun c => !(c.1 == (user, target.label))), .ok ())

/-- Modelled from the spec: `is_configured(target, user)` is a pure query
on the credential store. -/
def is_configured (target : Computer) (user : String) (store : AuthStore) : Bool :=
  store.any (fun c => c.1 == (user, target.label))

/-! ## Data.export (orm/data/__init__.py) -/

/-- The filesystem seen by `Data.export`: the existing files with their
contents. -/
structure Fs where
  files : List (String × String)
deriving DecidableEq, Repr

/-- Embeds `os.path.exists`. -/
def Fs.exists_path (fs : Fs) (p : String) : Bool := (fs.files.map Prod.fst).contains p

/-- Writing a file (`io.open(path, 'wb')` followed by `write`): replace
the content when the path exists, create the file otherwise. -/
def fsWriteAux (p content : String) : List (String × String) → List (String × String)
  | [] => [(p, content)]
  | (q, c) :: rest => if q = p then (p, content) :: rest else (q, c) :: fsWriteAux p content rest

/-- Writing a file on the filesystem. -/
def Fs.write (fs : Fs) (p content : String) : Fs := ⟨fsWriteAux p content fs.files⟩

/-- The exceptions raised by `Data.export`. -/
inductive ExportError
  | valueError (msg : String)
  | osError (msg : String)
deriving DecidableEq, Repr

/-- Embeds `Data.export`: the path check, the existence checks with
`overwrite` unset, and the writes, in the order of the source.  The
format-specific content `(filetext, extra_files)` produced by the
`_exportcontent` dispatch is passed in as data (the claim under study does
not involve the format inference).  Returns the filesystem after the call
together with the list of files created or the exception raised. -/
def Data.export (fs : Fs) (path : String) (overwrite : Bool)
    (filetext : String) (extra_files : List (String × String)) :
    Fs × Except ExportError (List String) :=
  if path = "" then (fs, .error (.valueError "Path not recognized"))
  else if fs.exists_path path && !overwrite then
    (fs, .error (.osError ("A file was already found at " ++ path)))
  else
    match
      (if !overwrite then (extra_files.map Prod.fst).find? (fun f => fs.exists_path f)
       else none) with
    | some fname =>
        (fs, .error (.osError ("The file " ++ fname ++ " already exists, stopping.")))
    | none =>
      if !overwrite && fs.exists_path path then
        (fs, .error (.osError ("The file " ++ path ++ " already exists, stopping.")))
      else
        let fs1 := extra_files.foldl (fun acc pf => acc.write pf.1 pf.2) fs
        (fs1.write path filetext, .ok ((extra_files.map Prod.fst) ++ [path]))

/-! ## CifData md5 handling (orm/data/cif.py) -/

/-- The state of a `CifData` node relevant to the `md5` attribute: the
attached CIF file's content, the stored `md5` attribute, the `source`
attribute dictionary and the stored flag. -/
structure CifState where
  file : Option String
  md5_attr : Option String
  source : Option (List (String × String))
  is_stored : Bool
deriving DecidableEq, Repr

/-- Dictionary access `self.source.get(k, None)`. -/
def sourceGet (src : Option (List (String × String))) (k : String) : Option String :=
  match src with
  | none => none
  | some d =>
    match d.find? (fun p => p.1 == k) with
    | some p => some p.2
    | none => none

/-- Embeds `CifData.generate_md5`, parameterized by the hash function
`md5_file`: hash the attached file, or raise `ValidationError` when no
file is attached. -/
def generate_md5 (md5_file : String → String) (st : CifState) : Except String String :=
  match st.file with
  | none => .error "No valid CIF was passed!"
  | some f => .ok (md5_file f)

/-- Embeds `CifData.set_file`: attach the new file, clear the source
descriptor when its `source_md5` disagrees with the new hash, and store
the new hash in the `md5` attribute. -/
def set_file (md5_file : String → String) (st : CifState) (content : String) : CifState :=
  let md5sum := md5_file content
  let source' :=
    match sourceGet st.source "source_md5" with
    | some m => if m != md5sum then some ([] : List (String × String)) else st.source
    | none => st.source
  { st with file := some content, source := source', md5_attr := some md5sum }

/-- Embeds `CifData.store`: when the node is not yet stored, set the `md5`
attribute from the current file, then persist (`super().store`). -/
def store (md5_file : String → String) (st : CifState) : Except String CifState :=
  if !st.is_stored then
    match generate_md5 md5_file st with
    | .error e => .error e
    | .ok h => .ok { st with md5_attr := some h, is_stored := true }
  else .ok { st with is_stored := true }

/-- Embeds `CifData._validate`: raise `ValidationError` when the `md5`
attribute is unset or differs from the recomputed hash of the attached
file (recomputing the hash itself raises when no file is attached). -/
def cif_validate (md5_file : String → String) (st : CifState) : Except String Unit :=
  match st.md5_attr with
  | none => .error "attribute 'md5' not set."
  | some attr_md5 =>
    match generate_md5 md5_file st with
    | .error e => .error e
    | .ok md5 =>
      if attr_md5 ≠ md5 then
        .error ("Attribute 'md5' says '" ++ attr_md5 ++ "' but '" ++ md5 ++
          "' was parsed instead.")
      else .ok ()

/-! ## Dictionary lemmas -/

theorem hasKey_iff_mem {k : String} : ∀ {d : RawInputs}, hasKey k d = true ↔ k ∈ d.map Prod.fst
  | [] => by simp [hasKey]
  | (k', v) :: rest => by
    simp only [hasKey, List.map_cons, List.mem_cons, Bool.or_eq_true, beq_iff_eq]
    rw [hasKey_iff_mem]
    constructor
    · rintro (h | h)
      · exact Or.inl h.symm
      · exact Or.inr h
    · rintro (h | h)
      · exact Or.inl h.symm
      · exact Or.inr h

theorem popKey_eq_none_iff {k : String} : ∀ {d : RawInputs}, popKey k d = none ↔ hasKey k d = false
  | [] => by simp [popKey, hasKey]
  | (k', v) :: rest => by
    by_cases hk : k' = k
    · simp [popKey, hasKey, hk]
    · have hne : (k' == k) = false := by simp [hk]
      simp only [popKey, if_neg hk, hasKey, hne, Bool.false_or]
      cases hp : popKey k rest with
      | none =>
        simp [(popKey_eq_none_iff (d := rest)).mp hp]
      | some pr =>
        have hrest : hasKey k rest ≠ false := fun hc => by
          rw [(popKey_eq_none_iff (d := rest)).mpr hc] at hp
          cases hp
        simp [hrest]

theorem popKey_of_hasKey {k : String} {d : RawInputs} (h : hasKey k d = true) :
    ∃ v d', popKey k d = some (v, d') := by
  cases hp : popKey k d with
  | none => rw [popKey_eq_none_iff] at hp; simp [hp] at h
  | some pr => exact ⟨pr.1, pr.2, rfl⟩

theorem popKey_lookup {k : String} {v : Node} :
    ∀ {d d' : RawInputs}, popKey k d = some (v, d') → lookupNode k d = some v
  | [], _, h => by simp [popKey] at h
  | (k', w) :: rest, _, h => by
    by_cases hk : k' = k
    · simp only [popKey, if_pos hk] at h
      cases h
      simp [lookupNode, hk]
    · simp only [popKey, if_neg hk] at h
      cases hp : popKey k rest with
      | none => simp [hp] at h
      | some pr =>
        obtain ⟨v', rest'⟩ := pr
        simp only [hp] at h
        cases h
        simp only [lookupNode, if_neg hk]
        exact popKey_lookup hp

theorem popKey_hasKey {j k : String} {v : Node} (hjk : j ≠ k) :
    ∀ {d d' : RawInputs}, popKey k d = some (v, d') → hasKey j d' = hasKey j d
  | [], _, h => by simp [popKey] at h
  | (k', w) :: rest, _, h => by
    by_cases hk : k' = k
    · simp only [popKey, if_pos hk] at h
      cases h
      have hne : (k' == j) = false := by
        rw [hk]
        simp only [beq_eq_false_iff_ne, ne_eq]
        exact fun hc => hjk hc.symm
      simp [hasKey, hne]
    · simp only [popKey, if_neg hk] at h
      cases hp : popKey k rest with
      | none => simp [hp] at h
      | some pr =>
        obtain ⟨v', rest'⟩ := pr
        simp only [hp] at h
        cases h
        simp [hasKey, popKey_hasKey hjk hp]

theorem popKey_filter {k : String} {v : Node} :
    ∀ {d d' : RawInputs}, keysNodup d → popKey k d = some (v, d') →
      d' = d.filter (fun p => !(p.1 == k))
  | [], _, _, h => by simp [popKey] at h
  | (k', w) :: rest, _, hnd, h => by
    have hnd' : keysNodup rest := by
      simpa [keysNodup] using (List.nodup_cons.mp hnd).2
    by_cases hk : k' = k
    · simp only [popKey, if_pos hk] at h
      cases h
      have hkn : k ∉ rest.map Prod.fst := by
        have := (List.nodup_cons.mp hnd).1
        simpa [hk] using this
      have hself : rest.filter (fun p => !(p.1 == k)) = rest := by
        apply List.filter_eq_self.mpr
        intro a ha
        have : a.1 ≠ k := fun hc => hkn (hc ▸ List.mem_map_of_mem Prod.fst ha)
        simp [this]
      simp [List.filter_cons, hk, hself]
    · simp only [popKey, if_neg hk] at h
      cases hp : popKey k rest with
      | none => simp [hp] at h
      | some pr =>
        obtain ⟨v', rest'⟩ := pr
        simp only [hp] at h
        cases h
        simp [List.filter_cons, hk, popKey_filter hnd' hp]

theorem popKey_keysNodup {k : String} {d d' : RawInputs} {v : Node} (hnd : keysNodup d)
    (h : popKey k d = some (v, d')) : keysNodup d' := by
  rw [popKey_filter hnd h]
  exact ((List.filter_sublist d).map Prod.fst).nodup hnd

theorem hasKey_dictInsert {j k : String} {v : Node} :
    ∀ {d : RawInputs}, hasKey j (dictInsert k v d) = true ↔ (j = k ∨ hasKey j d = true)
  | [] => by
    simp only [dictInsert, hasKey, Bool.or_false, beq_iff_eq]
    constructor
    · exact fun h => Or.inl h.symm
    · rintro (h | h)
      · exact h.symm
      · simp [hasKey] at h
  | (k', w) :: rest => by
    by_cases hk : k' = k
    · rw [dictInsert, if_pos hk, hk]
      simp only [hasKey, Bool.or_eq_true, beq_iff_eq]
      constructor
      · rintro (h | h)
        · exact Or.inl h.symm
        · exact Or.inr (Or.inr h)
      · rintro (h | h | h)
        · exact Or.inl h.symm
        · exact Or.inl h
        · exact Or.inr h
    · rw [dictInsert, if_neg hk]
      simp only [hasKey, Bool.or_eq_true, beq_iff_eq]
      rw [hasKey_dictInsert]
      tauto

theorem lookup_dictInsert_self {k : String} {v : Node} :
    ∀ {d : RawInputs}, lookupNode k (dictInsert k v d) = some v
  | [] => by simp [dictInsert, lookupNode]
  | (k', w) :: rest => by
    by_cases hk : k' = k
    · rw [dictInsert, if_pos hk]
      simp [lookupNode]
    · rw [dictInsert, if_neg hk]
      simp [lookupNode, hk, lookup_dictInsert_self]

theorem lookup_dictInsert_ne {j k : String} {v : Node} (hjk : j ≠ k) :
    ∀ {d : RawInputs}, lookupNode j (dictInsert k v d) = lookupNode j d
  | [] => by
    have h1 : k ≠ j := fun hc => hjk hc.symm
    simp [dictInsert, lookupNode, h1]
  | (k', w) :: rest => by
    by_cases hk : k' = k
    · have h1 : k ≠ j := fun hc => hjk hc.symm
      rw [dictInsert, if_pos hk]
      simp [lookupNode, h1, hk]
    · rw [dictInsert, if_neg hk]
      simp [lookupNode, lookup_dictInsert_ne hjk]

theorem find?_congr {α : Type} {p q : α → Bool} {l : List α}
    (h : ∀ x ∈ l, p x = q x) : l.find? p = l.find? q := by
  induction l with
  | nil => rfl
  | cons a l ih =>
    have ha := h a (List.mem_cons_self a l)
    cases hp : p a with
    | true => rw [List.find?_cons_of_pos _ hp, List.find?_cons_of_pos _ (ha ▸ hp)]
    | false =>
      rw [List.find?_cons_of_neg _ (by simp [hp]), List.find?_cons_of_neg _ (by simp [← ha, hp])]
      exact ih fun x hx => h x (List.mem_cons_of_mem a hx)

/-! ## Lemmas about the two loops of `validate_input_nodes` -/

theorem processRequired_error (cfg : CalcConfig) {m : String} :
    ∀ (ks : List String) (nodes raw : RawInputs), ks.Nodup →
      ks.find? (fun k => !(hasKey k raw)) = some m →
      processRequired cfg ks nodes raw = .error (.missingRequired m)
  | [], nodes, raw, _, hfm => by simp [List.find?] at hfm
  | k :: ks, nodes, raw, hnd, hfm => by
    cases h : hasKey k raw with
    | false =>
      rw [List.find?_cons_of_pos _ (by simp [h])] at hfm
      injection hfm with hm
      subst hm
      have hpop : popKey k raw = none := popKey_eq_none_iff.mpr h
      simp [processRequired, hpop]
    | true =>
      rw [List.find?_cons_of_neg _ (by simp [h])] at hfm
      obtain ⟨v, raw', hpop⟩ := popKey_of_hasKey h
      have hknotin : k ∉ ks := (List.nodup_cons.mp hnd).1
      have hcong : ∀ x ∈ ks, (!(hasKey x raw)) = (!(hasKey x raw')) := by
        intro x hx
        have hxk : x ≠ k := fun hc => hknotin (hc ▸ hx)
        rw [popKey_hasKey hxk hpop]
      rw [find?_congr hcong] at hfm
      simp only [processRequired, hpop]
      exact processRequired_error cfg ks _ raw' (List.nodup_cons.mp hnd).2 hfm

theorem processRequired_ok_of_present (cfg : CalcConfig) :
    ∀ (ks : List String) (nodes raw : RawInputs), keysNodup raw → ks.Nodup →
      (∀ k ∈ ks, hasKey k raw = true) →
      ∃ ns rw1, processRequired cfg ks nodes raw = .ok (ns, rw1)
  | [], nodes, raw, _, _, _ => ⟨nodes, raw, rfl⟩
  | k :: ks, nodes, raw, hraw, hnd, hall => by
    obtain ⟨v, raw', hpop⟩ := popKey_of_hasKey (hall k (List.mem_cons_self k ks))
    have hraw' : keysNodup raw' := popKey_keysNodup hraw hpop
    have hall' : ∀ x ∈ ks, hasKey x raw' = true := by
      intro x hx
      have hxk : x ≠ k := fun hc => (List.nodup_cons.mp hnd).1 (hc ▸ hx)
      rw [popKey_hasKey hxk hpop]
      exact hall x (List.mem_cons_of_mem k hx)
    obtain ⟨ns, rw1, hrun⟩ :=
      processRequired_ok_of_present cfg ks (dictInsert (cfg.linkname k) v nodes) raw' hraw'
        (List.nodup_cons.mp hnd).2 hall'
    exact ⟨ns, rw1, by simp only [processRequired, hpop]; exact hrun⟩

theorem processRequired_ok_raw (cfg : CalcConfig) :
    ∀ (ks : List String) (nodes raw ns rw1 : RawInputs), keysNodup raw →
      processRequired cfg ks nodes raw = .ok (ns, rw1) →
      rw1 = raw.filter (fun p => !(ks.contains p.1))
  | [], nodes, raw, ns, rw1, _, h => by
    simp only [processRequired, Except.ok.injEq, Prod.mk.injEq] at h
    rw [← h.2]
    simp
  | k :: ks, nodes, raw, ns, rw1, hraw, h => by
    cases hpop : popKey k raw with
    | none => simp [processRequired, hpop] at h
    | some pr =>
      obtain ⟨v, raw'⟩ := pr
      simp only [processRequired, hpop] at h
      have hraw' : keysNodup raw' := popKey_keysNodup hraw hpop
      have ih := processRequired_ok_raw cfg ks _ raw' ns rw1 hraw' h
      rw [ih, popKey_filter hraw hpop, List.filter_filter]
      apply List.filter_congr
      intro a _
      by_cases hak : a.1 = k <;> simp [List.contains_cons, Bool.not_or, Bool.and_comm, hak]

theorem processRequired_ok_hasKey (cfg : CalcConfig) :
    ∀ (ks : List String) (nodes raw ns rw1 : RawInputs),
      processRequired cfg ks nodes raw = .ok (ns, rw1) →
      ∀ j, hasKey j ns = true ↔ (hasKey j nodes = true ∨ j ∈ ks.map cfg.linkname)
  | [], nodes, raw, ns, rw1, h, j => by
    simp only [processRequired, Except.ok.injEq, Prod.mk.injEq] at h
    rw [← h.1]
    simp
  | k :: ks, nodes, raw, ns, rw1, h, j => by
    cases hpop : popKey k raw with
    | none => simp [processRequired, hpop] at h
    | some pr =>
      obtain ⟨v, raw'⟩ := pr
      simp only [processRequired, hpop] at h
      have ih := processRequired_ok_hasKey cfg ks _ raw' ns rw1 h j
      rw [ih, hasKey_dictInsert]
      simp only [List.map_cons, List.mem_cons]
      tauto

theorem processRequired_hasKey_false (cfg : CalcConfig) {j : String} :
    ∀ (ks : List String) (nodes raw ns rw1 : RawInputs), hasKey j raw = false →
      processRequired cfg ks nodes raw = .ok (ns, rw1) → hasKey j rw1 = false
  | [], nodes, raw, ns, rw1, habs, h => by
    simp only [processRequired, Except.ok.injEq, Prod.mk.injEq] at h
    rw [← h.2]
    exact habs
  | k :: ks, nodes, raw, ns, rw1, habs, h => by
    cases hpop : popKey k raw with
    | none => simp [processRequired, hpop] at h
    | some pr =>
      obtain ⟨v, raw'⟩ := pr
      simp only [processRequired, hpop] at h
      have hkj : j ≠ k := by
        intro hc
        subst hc
        rw [popKey_eq_none_iff.mpr habs] at hpop
        cases hpop
      have habs' : hasKey j raw' = false := by
        rw [popKey_hasKey hkj hpop]
        exact habs
      exact processRequired_hasKey_false cfg ks _ raw' ns rw1 habs' h

theorem processOptional_raw (cfg : CalcConfig) :
    ∀ (ks : List String) (nodes raw : RawInputs), keysNodup raw →
      (processOptional cfg ks nodes raw).2 = raw.filter (fun p => !(ks.contains p.1))
  | [], nodes, raw, _ => by simp [processOptional]
  | k :: ks, nodes, raw, hraw => by
    cases hpop : popKey k raw with
    | some pr =>
      obtain ⟨v, raw'⟩ := pr
      have hraw' := popKey_keysNodup hraw hpop
      simp only [processOptional, hpop]
      rw [processOptional_raw cfg ks _ raw' hraw', popKey_filter hraw hpop, List.filter_filter]
      apply List.filter_congr
      intro a _
      by_cases hak : a.1 = k <;> simp [List.contains_cons, Bool.not_or, Bool.and_comm, hak]
    | none =>
      have hk : hasKey k raw = false := popKey_eq_none_iff.mp hpop
      simp only [processOptional, hpop]
      rw [processOptional_raw cfg ks _ raw hraw]
      apply List.filter_congr
      intro a ha
      have hne : a.1 ≠ k := fun hc => by
        have : hasKey k raw = true := hasKey_iff_mem.mpr (List.mem_map.mpr ⟨a, ha, hc⟩)
        rw [this] at hk
        cases hk
      simp [List.contains_cons, hne]

theorem processOptional_hasKey (cfg : CalcConfig) :
    ∀ (ks : List String) (nodes raw : RawInputs) (j : String),
      hasKey j (processOptional cfg ks nodes raw).1 = true ↔
        (hasKey j nodes = true ∨ j ∈ ks.map cfg.linkname)
  | [], nodes, raw, j => by simp [processOptional]
  | k :: ks, nodes, raw, j => by
    cases hpop : popKey k raw with
    | some pr =>
      obtain ⟨v, raw'⟩ := pr
      simp only [processOptional, hpop]
      rw [processOptional_hasKey cfg ks _ raw' j, hasKey_dictInsert]
      simp only [List.map_cons, List.mem_cons]
      tauto
    | none =>
      simp only [processOptional, hpop]
      rw [processOptional_hasKey cfg ks _ raw j, hasKey_dictInsert]
      simp only [List.map_cons, List.mem_cons]
      tauto

theorem processOptional_lookup_preserve (cfg : CalcConfig) {j : String} :
    ∀ (ks : List String) (nodes raw : RawInputs), (∀ k' ∈ ks, cfg.linkname k' ≠ j) →
      lookupNode j (processOptional cfg ks nodes raw).1 = lookupNode j nodes
  | [], nodes, raw, _ => rfl
  | k :: ks, nodes, raw, hj => by
    have hk : j ≠ cfg.linkname k := fun hc => hj k (List.mem_cons_self k ks) hc.symm
    have hj' : ∀ k' ∈ ks, cfg.linkname k' ≠ j := fun k' hk' => hj k' (List.mem_cons_of_mem k hk')
    cases hpop : popKey k raw with
    | some pr =>
      obtain ⟨v, raw'⟩ := pr
      simp only [processOptional, hpop]
      rw [processOptional_lookup_preserve cfg ks _ raw' hj', lookup_dictInsert_ne hk]
    | none =>
      simp only [processOptional, hpop]
      rw [processOptional_lookup_preserve cfg ks _ raw hj', lookup_dictInsert_ne hk]

theorem processOptional_lookup_default (cfg : CalcConfig) {k : String} :
    ∀ (ks : List String) (nodes raw : RawInputs), k ∈ ks → hasKey k raw = false →
      (∀ k' ∈ ks, k' ≠ k → cfg.linkname k' ≠ cfg.linkname k) →
      lookupNode (cfg.linkname k) (processOptional cfg ks nodes raw).1 =
        some (mkDefaultNode (get_input_valid_type (cfg.valid_types k)))
  | [], _, _, hmem, _, _ => absurd hmem (List.not_mem_nil k)
  | k₀ :: ks, nodes, raw, hmem, habs, hinj => by
    by_cases hk : k₀ = k
    · subst hk
      have hpop : popKey k₀ raw = none := popKey_eq_none_iff.mpr habs
      simp only [processOptional, hpop]
      by_cases hmem' : k₀ ∈ ks
      · exact processOptional_lookup_default cfg ks _ raw hmem' habs
          (fun k' h1 h2 => hinj k' (List.mem_cons_of_mem k₀ h1) h2)
      · rw [processOptional_lookup_preserve cfg ks _ raw ?hpres, lookup_dictInsert_self]
        case hpres =>
          intro k' hk'
          have hne : k' ≠ k₀ := fun hc => hmem' (hc ▸ hk')
          exact hinj k' (List.mem_cons_of_mem k₀ hk') hne
    · have hmem' : k ∈ ks := by
        cases List.mem_cons.mp hmem with
        | inl h => exact absurd h.symm hk
        | inr h => exact h
      have hinj' : ∀ k' ∈ ks, k' ≠ k → cfg.linkname k' ≠ cfg.linkname k :=
        fun k' h1 => hinj k' (List.mem_cons_of_mem k₀ h1)
      cases hpop : popKey k₀ raw with
      | some pr =>
        obtain ⟨v, raw'⟩ := pr
        have habs' : hasKey k raw' = false := by
          rw [popKey_hasKey (fun hc => hk hc.symm) hpop]
          exact habs
        simp only [processOptional, hpop]
        exact processOptional_lookup_default cfg ks _ raw' hmem' habs' hinj'
      | none =>
        simp only [processOptional, hpop]
        exact processOptional_lookup_default cfg ks _ raw hmem' habs hinj'

/-! ## Lemmas about `validate_input_nodes` and `_prepare_for_submission` -/

theorem keysNodup_filter {d : RawInputs} {f : String × Node → Bool} (hnd : keysNodup d) :
    keysNodup (d.filter f) :=
  ((List.filter_sublist d).map Prod.fst).nodup hnd

theorem isEmpty_eq_true_iff {l : RawInputs} : l.isEmpty = true ↔ l = [] := by
  cases l <;> simp

theorem contains_iff_mem {l : List String} {a : String} : l.contains a = true ↔ a ∈ l := by
  induction l with
  | nil => simp
  | cons b l ih =>
    rw [List.contains_cons]
    simp only [Bool.or_eq_true, beq_iff_eq, ih, List.mem_cons]

/-- Joint characterization of a `validate_input_nodes` run whose required
keys are all present: the residual dictionary is exactly the unrecognized
entries, deciding between the success and the unrecognized-keys error, and
on success the validated dictionary's keys are the link names of the
required and optional keys. -/
theorem validate_residual (cfg : CalcConfig) (raw : RawInputs) (hraw : keysNodup raw)
    (hnd : cfg.required_inputs.Nodup)
    (hall : ∀ k ∈ cfg.required_inputs, hasKey k raw = true) :
    ∃ ns,
      (∀ j, hasKey j ns = true ↔
        j ∈ (cfg.required_inputs ++ cfg.optional_inputs).map cfg.linkname) ∧
      ((unrecognizedEntries cfg raw = [] ∧
          validate_input_nodes cfg raw = .ok (ns, unrecognizedEntries cfg raw)) ∨
        (unrecognizedEntries cfg raw ≠ [] ∧
          validate_input_nodes cfg raw =
            .error (.unrecognized ((unrecognizedEntries cfg raw).map Prod.fst)))) := by
  obtain ⟨ns1, rw1, hrun⟩ :=
    processRequired_ok_of_present cfg cfg.required_inputs [] raw hraw hnd hall
  have hrw1 : rw1 = raw.filter (fun p => !(cfg.required_inputs.contains p.1)) :=
    processRequired_ok_raw cfg cfg.required_inputs [] raw ns1 rw1 hraw hrun
  have hrw1nd : keysNodup rw1 := by
    rw [hrw1]
    exact keysNodup_filter hraw
  have hresid : (processOptional cfg cfg.optional_inputs ns1 rw1).2 =
      unrecognizedEntries cfg raw := by
    rw [processOptional_raw cfg cfg.optional_inputs ns1 rw1 hrw1nd, hrw1, List.filter_filter]
    unfold unrecognizedEntries
    apply List.filter_congr
    intro a _
    rw [Bool.and_comm]
  refine ⟨(processOptional cfg cfg.optional_inputs ns1 rw1).1, ?_, ?_⟩
  · intro j
    rw [processOptional_hasKey cfg cfg.optional_inputs ns1 rw1 j,
      processRequired_ok_hasKey cfg cfg.required_inputs [] raw ns1 rw1 hrun j]
    simp [hasKey, or_assoc]
  · by_cases hemp : unrecognizedEntries cfg raw = []
    · left
      refine ⟨hemp, ?_⟩
      simp only [validate_input_nodes, hrun]
      rw [if_pos (by rw [hresid, hemp]; rfl)]
      rw [← hresid]
    · right
      refine ⟨hemp, ?_⟩
      simp only [validate_input_nodes, hrun]
      rw [if_neg ?hne, hresid]
      case hne =>
        intro hc
        rw [hresid] at hc
        exact hemp (isEmpty_eq_true_iff.mp hc)

/-- Inversion of a successful `_prepare_for_submission` run: it validated
the inputs, found the three nodes under their link names, and returned the
literally assembled `CalcInfo`. -/
theorem prepare_ok_inv (cfg : CalcConfig) (selfUuid : String) (raw : RawInputs)
    (ci : CalcInfo) (h : prepare_for_submission cfg selfUuid raw = .ok ci) :
    ∃ ns rawF input_x input_y input_code,
      validate_input_nodes cfg raw = .ok (ns, rawF) ∧
      lookupNode (cfg.linkname "x") ns = some input_x ∧
      lookupNode (cfg.linkname "y") ns = some input_y ∧
      lookupNode (cfg.linkname "code") ns = some input_code ∧
      ci = { uuid := selfUuid
             codes_info := [{ cmdline_params := ["-in", INPUT_FILE_NAME]
                              stdout_name := OUTPUT_FILE_NAME
                              code_uuid := input_code.uuid }]
             retrieve_list := get_retrieve_list
             local_copy_list := get_local_copy_list
             remote_copy_list := get_remote_copy_list } := by
  cases hval : validate_input_nodes cfg raw with
  | error e => simp [prepare_for_submission, hval] at h
  | ok pr =>
    obtain ⟨ns, rawF⟩ := pr
    simp only [prepare_for_submission, hval] at h
    cases hx : lookupNode (cfg.linkname "x") ns with
    | none => simp [hx] at h
    | some input_x =>
      cases hy : lookupNode (cfg.linkname "y") ns with
      | none => simp [hx, hy] at h
      | some input_y =>
        cases hc : lookupNode (cfg.linkname "code") ns with
        | none => simp [hx, hy, hc] at h
        | some input_code =>
          simp only [hx, hy, hc] at h
          injection h with h2
          exact ⟨ns, rawF, input_x, input_y, input_code, rfl, hx, hy, hc, h2.symm⟩

/-! ## Claims about input validation and submission preparation -/

/-- C1: if the raw inputs lack some required key, `validate_input_nodes`
fails with `InputValidationError` whose message names the (first) missing
required key; in Scenario B (required keys `[code, x, y]`, raw inputs
holding only `code` and `x`) the message names `y`. -/
theorem validate_missing_required_names_key (cfg : CalcConfig) (raw : RawInputs) (k : String)
    (hnd : cfg.required_inputs.Nodup)
    (hk : firstMissing cfg.required_inputs raw = some k) :
    k ∈ cfg.required_inputs ∧ hasKey k raw = false ∧
      validate_input_nodes cfg raw = .error (.missingRequired k) ∧
      ∃ pre post, renderVError (.missingRequired k) = pre ++ (k ++ post) := by
  have hk' : cfg.required_inputs.find? (fun x => !(hasKey x raw)) = some k := hk
  have hmem : k ∈ cfg.required_inputs := List.mem_of_find?_eq_some hk'
  have hpred := List.find?_some hk'
  have habs : hasKey k raw = false := by simpa using hpred
  refine ⟨hmem, habs, ?_, "required input '", "' was not specified", rfl⟩
  unfold validate_input_nodes
  rw [processRequired_error cfg cfg.required_inputs [] raw hnd hk']

/-- C1 witness: Scenario B evaluated on concrete data. -/
theorem validate_missing_required_names_key_witness :
    "y" ∈ arithmeticAddConfig.required_inputs ∧
      hasKey "y" [("code", codeNode), ("x", xNode)] = false ∧
      validate_input_nodes arithmeticAddConfig [("code", codeNode), ("x", xNode)] =
        .error (.missingRequired "y") ∧
      ∃ pre post, renderVError (.missingRequired "y") = pre ++ ("y" ++ post) :=
  validate_missing_required_names_key arithmeticAddConfig
    [("code", codeNode), ("x", xNode)] "y" (by decide) (by rfl)

/-- C2: when every required key is present but unrecognized keys remain,
`validate_input_nodes` fails with `InputValidationError` listing exactly
the unrecognized keys — all of them, not only the first. -/
theorem validate_unrecognized_lists_all_keys (cfg : CalcConfig) (raw : RawInputs)
    (hraw : keysNodup raw) (hnd : cfg.required_inputs.Nodup)
    (hall : ∀ k ∈ cfg.required_inputs, hasKey k raw = true)
    (hne : unrecognizedEntries cfg raw ≠ []) :
    validate_input_nodes cfg raw =
        .error (.unrecognized ((unrecognizedEntries cfg raw).map Prod.fst)) ∧
      ∀ j, j ∈ (unrecognizedEntries cfg raw).map Prod.fst ↔
        (hasKey j raw = true ∧ j ∉ cfg.required_inputs ∧ j ∉ cfg.optional_inputs) := by
  constructor
  · obtain ⟨ns, _, hcases⟩ := validate_residual cfg raw hraw hnd hall
    rcases hcases with ⟨hemp, _⟩ | ⟨_, herr⟩
    · exact absurd hemp hne
    · exact herr
  · intro j
    constructor
    · intro hj
      obtain ⟨p, hp, rfl⟩ := List.mem_map.mp hj
      obtain ⟨hpraw, hpred⟩ := List.mem_filter.mp hp
      simp only [Bool.and_eq_true, Bool.not_eq_true'] at hpred
      refine ⟨hasKey_iff_mem.mpr (List.mem_map.mpr ⟨p, hpraw, rfl⟩), ?_, ?_⟩
      · intro hc
        have hcon := contains_iff_mem.mpr hc
        rw [hpred.1] at hcon
        cases hcon
      · intro hc
        have hcon := contains_iff_mem.mpr hc
        rw [hpred.2] at hcon
        cases hcon
    · rintro ⟨hjraw, hjreq, hjopt⟩
      obtain ⟨p, hp, hfst⟩ := List.mem_map.mp (hasKey_iff_mem.mp hjraw)
      refine List.mem_map.mpr ⟨p, List.mem_filter.mpr ⟨hp, ?_⟩, hfst⟩
      simp only [Bool.and_eq_true, Bool.not_eq_true']
      constructor
      · cases hcon : cfg.required_inputs.contains p.1 with
        | false => rfl
        | true => exact absurd (hfst ▸ contains_iff_mem.mp hcon) hjreq
      · cases hcon : cfg.optional_inputs.contains p.1 with
        | false => rfl
        | true => exact absurd (hfst ▸ contains_iff_mem.mp hcon) hjopt

/-- C2 witness: two unrecognized keys are both listed. -/
theorem validate_unrecognized_lists_all_keys_witness :
    validate_input_nodes arithmeticAddConfig
        [("code", codeNode), ("x", xNode), ("y", yNode), ("alpha", xNode), ("beta", yNode)] =
      .error (.unrecognized ["alpha", "beta"]) :=
  (validate_unrecognized_lists_all_keys arithmeticAddConfig
      [("code", codeNode), ("x", xNode), ("y", yNode), ("alpha", xNode), ("beta", yNode)]
      (by unfold keysNodup; decide) (by decide) (by decide) (by decide)).1

/-- C3: a raw-input dictionary containing every required key and no
unrecognized keys validates successfully, and the validated dictionary's
key set is exactly the set of link names of the required keys united with
the optional keys. -/
theorem validate_valid_returns_linkname_keys (cfg : CalcConfig) (raw : RawInputs)
    (hraw : keysNodup raw) (hnd : cfg.required_inputs.Nodup)
    (hall : ∀ k ∈ cfg.required_inputs, hasKey k raw = true)
    (hnone : unrecognizedEntries cfg raw = []) :
    ∃ ns rawF, validate_input_nodes cfg raw = .ok (ns, rawF) ∧
      ∀ j, hasKey j ns = true ↔
        j ∈ (cfg.required_inputs ++ cfg.optional_inputs).map cfg.linkname := by
  obtain ⟨ns, hkeys, hcases⟩ := validate_residual cfg raw hraw hnd hall
  rcases hcases with ⟨_, hok⟩ | ⟨hne, _⟩
  · exact ⟨ns, unrecognizedEntries cfg raw, hok, hkeys⟩
  · exact absurd hnone hne

/-- C3 witness: the concrete valid input set of the add calculation. -/
theorem validate_valid_returns_linkname_keys_witness :
    ∃ ns rawF,
      validate_input_nodes arithmeticAddConfig
          [("code", codeNode), ("x", xNode), ("y", yNode)] = .ok (ns, rawF) ∧
      ∀ j, hasKey j ns = true ↔
        j ∈ (arithmeticAddConfig.required_inputs ++
          arithmeticAddConfig.optional_inputs).map arithmeticAddConfig.linkname :=
  validate_valid_returns_linkname_keys arithmeticAddConfig
    [("code", codeNode), ("x", xNode), ("y", yNode)] (by unfold keysNodup; decide) (by decide)
    (by decide) (by decide)

/-- C4: an optional key absent from the raw inputs is filled in the
validated dictionary, at its link name, with a default-constructed value
of its declared valid type (the first type when a tuple of types is
declared). -/
theorem validate_absent_optional_filled_default (cfg : CalcConfig) (raw ns rawF : RawInputs)
    (k : String) (hmem : k ∈ cfg.optional_inputs) (habs : hasKey k raw = false)
    (hinj : ∀ k' ∈ cfg.optional_inputs, k' ≠ k → cfg.linkname k' ≠ cfg.linkname k)
    (h : validate_input_nodes cfg raw = .ok (ns, rawF)) :
    lookupNode (cfg.linkname k) ns =
      some (mkDefaultNode (get_input_valid_type (cfg.valid_types k))) := by
  cases hreq : processRequired cfg cfg.required_inputs [] raw with
  | error e => simp [validate_input_nodes, hreq] at h
  | ok pr =>
    obtain ⟨nodes, raw1⟩ := pr
    simp only [validate_input_nodes, hreq] at h
    have habs1 : hasKey k raw1 = false :=
      processRequired_hasKey_false cfg cfg.required_inputs [] raw nodes raw1 habs hreq
    by_cases hemp : (processOptional cfg cfg.optional_inputs nodes raw1).2.isEmpty
    · rw [if_pos hemp] at h
      injection h with h2
      have hns : ns = (processOptional cfg cfg.optional_inputs nodes raw1).1 :=
        (congrArg Prod.fst h2).symm
      rw [hns]
      exact processOptional_lookup_default cfg cfg.optional_inputs nodes raw1 hmem habs1 hinj
    · rw [if_neg hemp] at h
      exact Except.noConfusion h

/-- C4 witness: the absent optional key `settings` of the demo
configuration is filled with a default-constructed `Float`. -/
theorem validate_absent_optional_filled_default_witness :
    lookupNode "settings" [("code", codeNode), ("settings", mkDefaultNode Ty.floatTy)] =
      some (mkDefaultNode Ty.floatTy) :=
  validate_absent_optional_filled_default optionalDemoConfig [("code", codeNode)]
    [("code", codeNode), ("settings", mkDefaultNode Ty.floatTy)] [] "settings"
    (by decide) (by rfl) (by decide) (by rfl)

/-- C5: a successful `_prepare_for_submission` produces a `CalcInfo` whose
retrieval list contains the standard-output capture file name; that name
equals the `stdout_name` of the job's single `CodeInfo`, whose `code_uuid`
is the uuid of the validated `code` input. -/
theorem prepare_retrieve_contains_stdout (cfg : CalcConfig) (selfUuid : String)
    (raw : RawInputs) (ci : CalcInfo)
    (h : prepare_for_submission cfg selfUuid raw = .ok ci) :
    OUTPUT_FILE_NAME ∈ ci.retrieve_list ∧
      ∃ ns rawF input_code,
        validate_input_nodes cfg raw = .ok (ns, rawF) ∧
        lookupNode (cfg.linkname "code") ns = some input_code ∧
        ci.codes_info = [{ cmdline_params := ["-in", INPUT_FILE_NAME]
                           stdout_name := OUTPUT_FILE_NAME
                           code_uuid := input_code.uuid }] ∧
        ∀ ci0 ∈ ci.codes_info,
          ci0.stdout_name ∈ ci.retrieve_list ∧ ci0.code_uuid = input_code.uuid := by
  obtain ⟨ns, rawF, ix, iy, icode, hval, hx, hy, hc, hci⟩ :=
    prepare_ok_inv cfg selfUuid raw ci h
  subst hci
  refine ⟨List.mem_singleton.mpr rfl, ns, rawF, icode, hval, hc, rfl, ?_⟩
  intro ci0 hci0
  rw [List.mem_singleton] at hci0
  subst hci0
  exact ⟨List.mem_singleton.mpr rfl, rfl⟩

/-- C5 witness: prepared on concrete inputs, the output file is in the
retrieval list of the produced `CalcInfo`. -/
theorem prepare_retrieve_contains_stdout_witness :
    OUTPUT_FILE_NAME ∈
      (CalcInfo.mk "calc-uuid-1"
        [CodeInfo.mk ["-in", "aiida.in"] "aiida.out" "uuid-code-artifact"]
        ["aiida.out"] [] []).retrieve_list :=
  (prepare_retrieve_contains_stdout arithmeticAddConfig "calc-uuid-1"
    [("code", codeNode), ("x", xNode), ("y", yNode)] _ (by rfl)).1

/-- C6: the Transfer Plan returned by `_prepare_for_submission` never
contains two entries with the same destination path across its retrieval,
local-copy and remote-copy lists: the duplicate-destination rejection
clause is vacuous, and a plan with a duplicate destination is never
returned. -/
theorem prepare_no_duplicate_destinations (cfg : CalcConfig) (selfUuid : String)
    (raw : RawInputs) (ci : CalcInfo)
    (h : prepare_for_submission cfg selfUuid raw = .ok ci) :
    (plan_destinations ci).Nodup := by
  obtain ⟨ns, rawF, ix, iy, icode, hval, hx, hy, hc, hci⟩ :=
    prepare_ok_inv cfg selfUuid raw ci h
  subst hci
  simp [plan_destinations, get_retrieve_list, get_local_copy_list, get_remote_copy_list]

/-- C6 witness: the concrete plan has pairwise distinct destinations. -/
theorem prepare_no_duplicate_destinations_witness :
    (plan_destinations
      (CalcInfo.mk "calc-uuid-2"
        [CodeInfo.mk ["-in", "aiida.in"] "aiida.out" "uuid-code-artifact"]
        ["aiida.out"] [] [])).Nodup :=
  prepare_no_duplicate_destinations arithmeticAddConfig "calc-uuid-2"
    [("code", codeNode), ("x", xNode), ("y", yNode)] _ (by rfl)

/-- C8: `validate_input_nodes` consumes its argument by popping every
recognized key from the caller's dictionary, so after a successful call
the dictionary the caller passed in is empty — in particular it no longer
holds any required or optional key. -/
theorem validate_consumes_recognized_keys (cfg : CalcConfig) (raw ns rawF : RawInputs)
    (h : validate_input_nodes cfg raw = .ok (ns, rawF)) :
    rawF = [] ∧ ∀ k, hasKey k rawF = false := by
  cases hreq : processRequired cfg cfg.required_inputs [] raw with
  | error e => simp [validate_input_nodes, hreq] at h
  | ok pr =>
    obtain ⟨nodes, raw1⟩ := pr
    simp only [validate_input_nodes, hreq] at h
    by_cases hemp : (processOptional cfg cfg.optional_inputs nodes raw1).2.isEmpty
    · rw [if_pos hemp] at h
      injection h with h2
      have hrawF : rawF = (processOptional cfg cfg.optional_inputs nodes raw1).2 :=
        (congrArg Prod.snd h2).symm
      have hnil : rawF = [] := by
        rw [hrawF]
        exact isEmpty_eq_true_iff.mp hemp
      exact ⟨hnil, fun k => by rw [hnil]; rfl⟩
    · rw [if_neg hemp] at h
      exact Except.noConfusion h

/-- C8 witness: after a concrete successful validation the caller's
dictionary state is empty. -/
theorem validate_consumes_recognized_keys_witness :
    ([] : RawInputs) = [] ∧ ∀ k, hasKey k ([] : RawInputs) = false :=
  validate_consumes_recognized_keys arithmeticAddConfig
    [("code", codeNode), ("x", xNode), ("y", yNode)]
    [("code", codeNode), ("x", xNode), ("y", yNode)] [] (by rfl)

/-- C7: supplying a credential parameter key outside the accepted-parameter
set of the target's transport kind makes `configure` fail with
`InvalidParameterError` naming an offending key, leaves the credential
store unchanged, and the (user, target) pair stays unconfigured. -/
theorem configure_invalid_param_fails (target : Computer) (user : String)
    (params : CredentialParams) (store : AuthStore)
    (hbad : ∃ p ∈ params, p.1 ∉ transport_accepted_params target.transport_type) :
    ∃ k, (configure target user params store).2 = .error (.invalidParameter k) ∧
      (∃ p ∈ params, p.1 = k) ∧
      k ∉ transport_accepted_params target.transport_type ∧
      (configure target user params store).1 = store ∧
      (is_configured target user store = false →
        is_configured target user (configure target user params store).1 = false) := by
  cases hf : params.find?
      (fun p => !((transport_accepted_params target.transport_type).contains p.1)) with
  | none =>
    exfalso
    obtain ⟨p0, hp0, hnp⟩ := hbad
    apply List.find?_eq_none.mp hf p0 hp0
    simpa using hnp
  | some p =>
    have hp : p ∈ params := List.mem_of_find?_eq_some hf
    have hpred := List.find?_some hf
    have hcon : (transport_accepted_params target.transport_type).contains p.1 = false := by
      simpa using hpred
    have hnm : p.1 ∉ transport_accepted_params target.transport_type := fun hc => by
      rw [contains_iff_mem.mpr hc] at hcon
      cases hcon
    refine ⟨p.1, ?_, ⟨p, hp, rfl⟩, hnm, ?_, ?_⟩
    · simp only [configure, hf]
    · simp only [configure, hf]
    · intro h
      simp only [configure, hf]
      exact h

/-- C7 witness: the invalid ssh configuration attempt of the computer
test, with an unconfigured store. -/
theorem configure_invalid_param_fails_witness :
    ∃ k,
      (configure (Computer.mk "test_configure_ssh_invalid" "ssh") "default-user"
          [("username", "radames"), ("invalid_auth_param", "TEST")] []).2 =
        .error (.invalidParameter k) ∧
      (∃ p ∈ [("username", "radames"), ("invalid_auth_param", "TEST")], p.1 = k) ∧
      k ∉ transport_accepted_params "ssh" ∧
      (configure (Computer.mk "test_configure_ssh_invalid" "ssh") "default-user"
          [("username", "radames"), ("invalid_auth_param", "TEST")] []).1 = [] ∧
      (is_configured (Computer.mk "test_configure_ssh_invalid" "ssh") "default-user" [] =
          false →
        is_configured (Computer.mk "test_configure_ssh_invalid" "ssh") "default-user"
          (configure (Computer.mk "test_configure_ssh_invalid" "ssh") "default-user"
            [("username", "radames"), ("invalid_auth_param", "TEST")] []).1 = false) :=
  configure_invalid_param_fails (Computer.mk "test_configure_ssh_invalid" "ssh")
    "default-user" [("username", "radames"), ("invalid_auth_param", "TEST")] [] (by decide)

/-- C9: with `overwrite` left `False`, `Data.export` raises `OSError` when
a file already exists at the target path or at any additional-file path
reported by the exporter; it raises before writing any file, so the
filesystem is returned unchanged. -/
theorem export_existing_raises_before_writing (fs : Fs) (path filetext : String)
    (extra_files : List (String × String)) (hpath : path ≠ "")
    (hex : fs.exists_path path = true ∨
      ∃ f ∈ extra_files.map Prod.fst, fs.exists_path f = true) :
    ∃ msg, Data.export fs path false filetext extra_files =
      (fs, .error (.osError msg)) := by
  cases hp : fs.exists_path path with
  | true =>
    exact ⟨"A file was already found at " ++ path, by simp [Data.export, hpath, hp]⟩
  | false =>
    have hex' : ∃ f ∈ extra_files.map Prod.fst, fs.exists_path f = true := by
      rcases hex with h | h
      · rw [hp] at h
        cases h
      · exact h
    cases hf : (extra_files.map Prod.fst).find? (fun f => fs.exists_path f) with
    | none =>
      exfalso
      obtain ⟨f0, hf0, hfe⟩ := hex'
      exact List.find?_eq_none.mp hf f0 hf0 hfe
    | some fname =>
      exact ⟨"The file " ++ fname ++ " already exists, stopping.",
        by simp [Data.export, hpath, hp, hf]⟩

/-- C9 witness: exporting over an existing file fails and returns the
filesystem unchanged. -/
theorem export_existing_raises_before_writing_witness :
    ∃ msg, Data.export (Fs.mk [("out.cif", "old")]) "out.cif" false "new content" [] =
      (Fs.mk [("out.cif", "old")], .error (.osError msg)) :=
  export_existing_raises_before_writing (Fs.mk [("out.cif", "old")]) "out.cif" "new content"
    [] (by decide) (Or.inl (by rfl))

/-- C10: the `md5` invariant of `CifData`: `set_file` attaches the file
and stores the hash of the new content (clearing a source descriptor whose
`source_md5` disagrees with it); `store` on an unstored node sets the
attribute from the current file before persisting; and `_validate`
succeeds exactly when the stored attribute equals the recomputed hash of
the attached file. -/
theorem cif_md5_invariant (md5_file : String → String) (st : CifState) (content : String) :
    ((set_file md5_file st content).md5_attr = some (md5_file content) ∧
      (set_file md5_file st content).file = some content) ∧
    (∀ m, sourceGet st.source "source_md5" = some m → m ≠ md5_file content →
      (set_file md5_file st content).source = some []) ∧
    (st.is_stored = false → ∀ st', store md5_file st = .ok st' →
      st'.is_stored = true ∧ ∀ f, st.file = some f → st'.md5_attr = some (md5_file f)) ∧
    (cif_validate md5_file st = .ok () ↔
      ∃ f, st.file = some f ∧ st.md5_attr = some (md5_file f)) := by
  refine ⟨⟨rfl, rfl⟩, ?_, ?_, ?_⟩
  · intro m hsrc hne
    have hb : (m != md5_file content) = true := bne_iff_ne.mpr hne
    simp [set_file, hsrc, hb]
  · intro hst st' hok
    simp [store, hst] at hok
    cases hg : generate_md5 md5_file st with
    | error e =>
      rw [hg] at hok
      exact Except.noConfusion hok
    | ok h =>
      rw [hg] at hok
      injection hok with hok2
      subst hok2
      refine ⟨rfl, ?_⟩
      intro f hf
      have hgen : generate_md5 md5_file st = .ok (md5_file f) := by
        unfold generate_md5
        rw [hf]
      rw [hg] at hgen
      injection hgen with h3
      simp [h3]
  · cases hattr : st.md5_attr with
    | none => simp [cif_validate, hattr]
    | some attr =>
      cases hfile : st.file with
      | none => simp [cif_validate, generate_md5, hattr, hfile]
      | some f =>
        by_cases he : attr = md5_file f
        · simp [cif_validate, generate_md5, hattr, hfile, he]
        · simp [cif_validate, generate_md5, hattr, hfile, he]

/-- C10 witness: the invariant evaluated with a concrete hash function,
state and file content. -/
theorem cif_md5_invariant_witness :
    ((set_file (fun s => s) ⟨some "old", some "old", none, false⟩ "new").md5_attr =
        some "new" ∧
      (set_file (fun s => s) ⟨some "old", some "old", none, false⟩ "new").file =
        some "new") ∧
    (∀ m, sourceGet (⟨some "old", some "old", none, false⟩ : CifState).source
        "source_md5" = some m → m ≠ "new" →
      (set_file (fun s => s) ⟨some "old", some "old", none, false⟩ "new").source =
        some []) ∧
    ((⟨some "old", some "old", none, false⟩ : CifState).is_stored = false →
      ∀ st', store (fun s => s) ⟨some "old", some "old", none, false⟩ = .ok st' →
        st'.is_stored = true ∧
        ∀ f, (⟨some "old", some "old", none, false⟩ : CifState).file = some f →
          st'.md5_attr = some f) ∧
    (cif_validate (fun s => s) ⟨some "old", some "old", none, false⟩ = .ok () ↔
      ∃ f, (⟨some "old", some "old", none, false⟩ : CifState).file = some f ∧
        (⟨some "old", some "old", none, false⟩ : CifState).md5_attr = some f) :=
  cif_md5_invariant (fun s => s) ⟨some "old", some "old", none, false⟩ "new"

end Aiida
